import Mathlib

/-!
# Verification of the `each` utility's core components

A shallow embedding, in Lean 4, of the core data model and operations of the
`each` command-line utility (format auto-detection over a replay buffer,
tabular/JSON format decoding and encoding, and format resolution), together
with theorems settling the specification claims about them.

Conventions used throughout:

* Bytes are modelled as `Char` (each `Char` stands for one byte; all concrete
  inputs exercised here are ASCII, where this identification is exact).
* Rust functions that can panic are modelled with an explicit panic value
  (`Option.none`, or an error constructor named `panic`): a Lean result of
  `none` / `.panic` means the Rust code aborts at that point instead of
  returning.
* Fallible Rust functions returning `Result` are modelled with `Except`.
-/

namespace Each

/-- `CACHE_LEN` from `src/readers.rs`: the intended bound on the replay
buffer's retained bytes. -/
def CACHE_LEN : Nat := 4096

/-- Model of an underlying `std::io::Read` source: a queue of chunks, where
each `read` call with capacity `cap` delivers up to `cap` bytes taken from
the head chunk (a real reader is free to return fewer bytes than requested;
the chunk decomposition models that freedom). -/
def srcRead : List (List Char) → Nat → List Char × List (List Char)
  | [], _ => ([], [])
  | c :: rest, cap =>
    if c.length ≤ cap then (c, rest) else (c.take cap, c.drop cap :: rest)

/-- Reading the source directly with a sequence of `read` calls (one `Nat`
capacity per call); returns all delivered bytes concatenated, and the
remaining source. -/
def srcReadSeq (s : List (List Char)) : List Nat → List Char × List (List Char)
  | [] => ([], s)
  | cap :: caps =>
    let (out, s') := srcRead s cap
    let (outs, s'') := srcReadSeq s' caps
    (out ++ outs, s'')

/-- State of `CachedReader` from `src/readers.rs`: the byte accumulator
`buffer`, the cursor `index`, and the wrapped live source. -/
structure CachedReader where
  buffer : List Char
  index : Nat
  source : List (List Char)

/-- `CachedReader::new`: empty buffer, cursor 0. -/
def CachedReader.new (src : List (List Char)) : CachedReader :=
  ⟨[], 0, src⟩

/-- `CachedReader::rewind`: resets the cursor to 0, leaving buffer and
source untouched. -/
def CachedReader.rewind (r : CachedReader) : CachedReader :=
  { r with index := 0 }

/-- `<CachedReader as Read>::read` from `src/readers.rs` lines 46–67.
If the cursor is inside the buffer, serve `min(buffer.len - index, cap)`
bytes from the buffer and advance the cursor.  Otherwise read from the live
source; if the (pre-read) cursor is below `CACHE_LEN`, append the whole
delivered chunk to the buffer; advance the cursor by the delivered length. -/
def CachedReader.read (r : CachedReader) (cap : Nat) : List Char × CachedReader :=
  if r.index < r.buffer.length then
    let toRead := min (r.buffer.length - r.index) cap
    ((r.buffer.drop r.index).take toRead,
      { r with index := r.index + toRead })
  else
    let res := srcRead r.source cap
    let buffer' := if r.index < CACHE_LEN then r.buffer ++ res.1 else r.buffer
    (res.1, ⟨buffer', r.index + res.1.length, res.2⟩)

/-- A sequence of `read` calls against a `CachedReader`; returns all
delivered bytes concatenated and the final reader state. -/
def CachedReader.readSeq (r : CachedReader) : List Nat → List Char × CachedReader
  | [] => ([], r)
  | cap :: caps =>
    let (out, r') := r.read cap
    let (outs, r'') := r'.readSeq caps
    (out ++ outs, r'')

/-- Reference source for the replayed stream: the already-delivered bytes
(as one chunk, omitted when empty) followed by the untouched live source. -/
def prependChunk (c : List Char) (q : List (List Char)) : List (List Char) :=
  if c = [] then q else c :: q

/- ### Unfolding equations for `read` -/

theorem CachedReader.read_buffer_case (r : CachedReader) (cap : Nat)
    (h : r.index < r.buffer.length) :
    r.read cap = ((r.buffer.drop r.index).take (min (r.buffer.length - r.index) cap),
      { r with index := r.index + min (r.buffer.length - r.index) cap }) := by
  unfold CachedReader.read
  simp only [h, if_true]

theorem CachedReader.read_source_case (r : CachedReader) (cap : Nat)
    (h : r.buffer.length ≤ r.index) :
    r.read cap = ((srcRead r.source cap).1,
      ⟨if r.index < CACHE_LEN then r.buffer ++ (srcRead r.source cap).1 else r.buffer,
        r.index + (srcRead r.source cap).1.length, (srcRead r.source cap).2⟩) := by
  unfold CachedReader.read
  simp only [not_lt.mpr h, if_false]

theorem srcRead_cons (c : List Char) (rest : List (List Char)) (cap : Nat) :
    srcRead (c :: rest) cap =
      if c.length ≤ cap then (c, rest) else (c.take cap, c.drop cap :: rest) := rfl

/- ### Invariants of a never-rewound reader -/

/-- While the cursor is at or past the end of the buffer, a `CachedReader`
is in pass-through mode: each read delivers exactly what the live source
delivers, and the mode is preserved. -/
theorem CachedReader.read_passthrough (r : CachedReader) (cap : Nat)
    (h : r.buffer.length ≤ r.index) :
    (r.read cap).1 = (srcRead r.source cap).1 ∧
    (r.read cap).2.source = (srcRead r.source cap).2 ∧
    (r.read cap).2.buffer.length ≤ (r.read cap).2.index := by
  rw [CachedReader.read_source_case r cap h]
  refine ⟨rfl, rfl, ?_⟩
  by_cases hc : r.index < CACHE_LEN
  · simp only [hc, if_true, List.length_append]
    omega
  · simp only [hc, if_false]
    omega

theorem CachedReader.readSeq_passthrough (caps : List Nat) :
    ∀ r : CachedReader, r.buffer.length ≤ r.index →
    (r.readSeq caps).1 = (srcReadSeq r.source caps).1 ∧
    (r.readSeq caps).2.source = (srcReadSeq r.source caps).2 ∧
    (r.readSeq caps).2.buffer.length ≤ (r.readSeq caps).2.index := by
  induction caps with
  | nil => intro r h; exact ⟨rfl, rfl, h⟩
  | cons cap caps ih =>
    intro r h
    have h1 := CachedReader.read_passthrough r cap h
    have h2 := ih (r.read cap).2 h1.2.2
    simp only [CachedReader.readSeq, srcReadSeq]
    refine ⟨?_, ?_, ?_⟩
    · rw [h1.1, h2.1, h1.2.1]
    · rw [h2.2.1, h1.2.1]
    · exact h2.2.2

/-- Caching invariant of a never-rewound reader: the cursor equals the
number of delivered bytes, the buffer never outruns the cursor, and as long
as the delivered total stays within `CACHE_LEN` the buffer holds exactly
the delivered bytes. -/
def FreshInv (r : CachedReader) (d : List Char) : Prop :=
  r.index = d.length ∧ r.buffer.length ≤ r.index ∧
    (d.length ≤ CACHE_LEN → r.buffer = d)

theorem CachedReader.read_freshInv (r : CachedReader) (d : List Char) (cap : Nat)
    (h : FreshInv r d) : FreshInv (r.read cap).2 (d ++ (r.read cap).1) := by
  obtain ⟨hidx, hlen, hbuf⟩ := h
  unfold FreshInv
  rw [CachedReader.read_source_case r cap hlen]
  refine ⟨?_, ?_, ?_⟩
  · simp [hidx]
  · by_cases hc : r.index < CACHE_LEN
    · simp only [hc, if_true, List.length_append]; omega
    · simp only [hc, if_false]; omega
  · intro hle
    simp only [List.length_append] at hle
    have hd : d.length ≤ CACHE_LEN := by omega
    have hbufd := hbuf hd
    by_cases hc : r.index < CACHE_LEN
    · simp only [hc, if_true, hbufd]
    · -- cursor already at CACHE_LEN: the bound forces the chunk to be empty
      have : (srcRead r.source cap).1.length = 0 := by omega
      have hnil : (srcRead r.source cap).1 = [] := List.length_eq_zero.mp this
      simp only [hc, if_false, hbufd, hnil, List.append_nil]

theorem CachedReader.readSeq_freshInv (caps : List Nat) :
    ∀ (r : CachedReader) (d : List Char), FreshInv r d →
    FreshInv (r.readSeq caps).2 (d ++ (r.readSeq caps).1) := by
  induction caps with
  | nil => intro r d h; simpa [CachedReader.readSeq] using h
  | cons cap caps ih =>
    intro r d h
    have h1 := CachedReader.read_freshInv r d cap h
    have h2 := ih (r.read cap).2 (d ++ (r.read cap).1) h1
    simp only [CachedReader.readSeq]
    simpa [List.append_assoc] using h2

/- ### Replay simulation after a rewind -/

/-- Simulation relation between a cached reader and a plain chunk queue:
either the reader is replaying its buffer and the queue starts with the
unread remainder of the buffer, or the reader is in pass-through mode and
the queue is exactly its live source. -/
def Sim (r : CachedReader) (q : List (List Char)) : Prop :=
  (r.index < r.buffer.length ∧ q = r.buffer.drop r.index :: r.source) ∨
  (r.buffer.length ≤ r.index ∧ q = r.source)

theorem CachedReader.read_sim (r : CachedReader) (q : List (List Char)) (cap : Nat)
    (h : Sim r q) :
    (r.read cap).1 = (srcRead q cap).1 ∧ Sim (r.read cap).2 (srcRead q cap).2 := by
  rcases h with ⟨hlt, hq⟩ | ⟨hle, hq⟩
  · -- replay phase
    subst hq
    rw [CachedReader.read_buffer_case r cap hlt, srcRead_cons]
    by_cases hcap : (r.buffer.drop r.index).length ≤ cap
    · have hlen : (r.buffer.drop r.index).length = r.buffer.length - r.index := by simp
      have hmin : min (r.buffer.length - r.index) cap = r.buffer.length - r.index := by
        omega
      simp only [hcap, if_true, hmin]
      constructor
      · rw [← hlen, List.take_length]
      · exact Or.inr ⟨by simp; omega, rfl⟩
    · have hlen : (r.buffer.drop r.index).length = r.buffer.length - r.index := by simp
      have hmin : min (r.buffer.length - r.index) cap = cap := by omega
      simp only [hcap, if_false, hmin]
      refine ⟨by trivial, Or.inl ⟨by simp; omega, ?_⟩⟩
      simp only [List.drop_drop]
  · -- pass-through phase
    subst hq
    have h1 := CachedReader.read_passthrough r cap hle
    exact ⟨h1.1, Or.inr ⟨h1.2.2, h1.2.1.symm⟩⟩

theorem CachedReader.readSeq_sim (caps : List Nat) :
    ∀ (r : CachedReader) (q : List (List Char)), Sim r q →
    (r.readSeq caps).1 = (srcReadSeq q caps).1 := by
  induction caps with
  | nil => intro r q _; rfl
  | cons cap caps ih =>
    intro r q h
    have h1 := CachedReader.read_sim r q cap h
    have h2 := ih (r.read cap).2 (srcRead q cap).2 h1.2
    simp only [CachedReader.readSeq, srcReadSeq]
    rw [h1.1, h2]

/-- **C1**: reading through a `CachedReader` that is never rewound delivers
byte-for-byte the same sequence as reading the underlying source directly
with the same read calls; and if `rewind` is called once after at most
`CACHE_LEN` total bytes have been delivered, every subsequent read pattern
delivers exactly what it would deliver from a source that first replays the
already-delivered bytes and then continues with the untouched live source. -/
theorem C1_cachedReader_replay_correct (src : List (List Char)) (caps1 caps2 : List Nat) :
    ((CachedReader.new src).readSeq caps1).1 = (srcReadSeq src caps1).1 ∧
    (((CachedReader.new src).readSeq caps1).1.length ≤ CACHE_LEN →
      ((((CachedReader.new src).readSeq caps1).2.rewind).readSeq caps2).1 =
        (srcReadSeq (prependChunk ((CachedReader.new src).readSeq caps1).1
          (((CachedReader.new src).readSeq caps1).2.source)) caps2).1) := by
  have hfresh : FreshInv (CachedReader.new src) [] :=
    ⟨rfl, Nat.le_refl 0, fun _ => rfl⟩
  have hpass := CachedReader.readSeq_passthrough caps1 (CachedReader.new src)
    (Nat.le_refl 0)
  constructor
  · exact hpass.1
  · intro hle
    have hinv := CachedReader.readSeq_freshInv caps1 (CachedReader.new src) [] hfresh
    rw [List.nil_append] at hinv
    obtain ⟨hidx, _, hbuf⟩ := hinv
    have hbuf' := hbuf hle
    apply CachedReader.readSeq_sim
    unfold prependChunk
    by_cases hnil : ((CachedReader.new src).readSeq caps1).1 = []
    · -- nothing was delivered: the rewound reader is already in pass-through mode
      right
      constructor
      · simp [CachedReader.rewind, hbuf', hnil]
      · simp [CachedReader.rewind, hnil]
    · -- the buffer holds exactly the delivered bytes; replay serves them first
      left
      constructor
      · simp only [CachedReader.rewind, hbuf']
        exact List.length_pos.mpr hnil
      · simp [CachedReader.rewind, hbuf', hnil]

/-- Witness for C1 at a concrete source and read pattern: the source
delivers `"abc"` in one chunk, two bytes are read, the reader is rewound,
and the replayed reads reproduce `"ab"` before reaching `"c"` live. -/
theorem C1_witness :
    ((CachedReader.new [['a', 'b', 'c']]).readSeq [2]).1.length ≤ CACHE_LEN ∧
    ((((CachedReader.new [['a', 'b', 'c']]).readSeq [2]).2.rewind).readSeq [1, 5]).1 =
      (srcReadSeq (prependChunk ((CachedReader.new [['a', 'b', 'c']]).readSeq [2]).1
        (((CachedReader.new [['a', 'b', 'c']]).readSeq [2]).2.source)) [1, 5]).1 :=
  ⟨by decide, (C1_cachedReader_replay_correct [['a', 'b', 'c']] [2] [1, 5]).2 (by decide)⟩

/-- **C5**: the claim that the buffer never exceeds `CACHE_LEN` fails on the
code: `read` checks `index < CACHE_LEN` *before* appending and then appends
the whole delivered chunk, so a single read that delivers `CACHE_LEN + 1`
bytes to a fresh reader leaves `CACHE_LEN + 1` bytes retained. -/
theorem C5_buffer_exceeds_cache_len :
    ((CachedReader.new [List.replicate (CACHE_LEN + 1) 'a']).read (CACHE_LEN + 1)).2.buffer.length
      = CACHE_LEN + 1 := by
  rw [CachedReader.read_source_case _ _ (by simp [CachedReader.new])]
  show (if 0 < CACHE_LEN then
    ([] : List Char) ++ (srcRead [List.replicate (CACHE_LEN + 1) 'a'] (CACHE_LEN + 1)).1
    else []).length = CACHE_LEN + 1
  rw [srcRead_cons, if_pos (by simp : (List.replicate (CACHE_LEN + 1) 'a').length ≤ CACHE_LEN + 1),
    if_pos (show 0 < CACHE_LEN by norm_num [CACHE_LEN])]
  simp

/- ## Structured values -/

/-- Model of `serde_json::Value`.  Objects are insertion-ordered association
lists with unique keys: the source preserves column order deliberately (see
the comment in `src/formats/csv.rs` lines 23–24), relying on `serde_json`'s
ordered-map configuration, which is set in the crate manifest rather than
under `src/`.  Numbers are modelled as integers (the claims only exercise
integral numbers). -/
inductive JValue where
  | null
  | bool (b : Bool)
  | num (n : Int)
  | str (s : String)
  | arr (xs : List JValue)
  | obj (fields : List (String × JValue))

/-- `Value::as_object`. -/
def JValue.asObject : JValue → Option (List (String × JValue))
  | .obj fields => some fields
  | _ => none

/-- `Value::as_str`. -/
def JValue.asStr : JValue → Option String
  | .str s => some s
  | _ => none

/-- Ordered-map lookup (`Map::get` / the `Index` access in `Csv::write`). -/
def lookupKV (fields : List (String × JValue)) (k : String) : Option JValue :=
  match fields with
  | [] => none
  | (k', v) :: rest => if k' = k then some v else lookupKV rest k

/-- Ordered-map insert (`Map::insert` with order preservation): an existing
key keeps its position and gets the new value; a new key is appended. -/
def insertKV (fields : List (String × JValue)) (k : String) (v : JValue) :
    List (String × JValue) :=
  match fields with
  | [] => [(k, v)]
  | (k', v') :: rest =>
    if k' = k then (k', v) :: rest else (k', v') :: insertKV rest k v

/-- The record built by the loop in `Csv::parse` (src/formats/csv.rs lines
156–159): for each column index `j`, insert `header[j] ↦ cols[j]` as a
string value.  `parse` only reaches this with `cols.length = header.length`,
where the pairwise `zip` coincides with the source's indexed loop. -/
def buildRecord (header : List String) (cols : List String) : List (String × JValue) :=
  (List.zip header cols).foldl (fun m kc => insertKV m kc.1 (.str kc.2)) []

/-- Escaping inside JSON string literals (external `serde_json` serializer,
modelled for the characters the claims exercise). -/
def jsonEscape (s : String) : String :=
  String.join (s.toList.map fun c =>
    if c = '"' then "\\\"" else if c = '\\' then "\\\\" else String.singleton c)

mutual

/-- `serde_json::to_string` (external crate), used by `Csv::write` for
non-string cell values. -/
def jsonToString : JValue → String
  | .null => "null"
  | .bool true => "true"
  | .bool false => "false"
  | .num n => toString n
  | .str s => "\"" ++ jsonEscape s ++ "\""
  | .arr xs => "[" ++ jsonArrToString xs ++ "]"
  | .obj fs => "\x7b" ++ jsonObjToString fs ++ "\x7d"

def jsonArrToString : List JValue → String
  | [] => ""
  | [x] => jsonToString x
  | x :: xs => jsonToString x ++ "," ++ jsonArrToString xs

def jsonObjToString : List (String × JValue) → String
  | [] => ""
  | [kv] => "\"" ++ jsonEscape kv.1 ++ "\":" ++ jsonToString kv.2
  | kv :: kvs => "\"" ++ jsonEscape kv.1 ++ "\":" ++ jsonToString kv.2 ++ "," ++ jsonObjToString kvs

end

/- ## Byte-level record reading (external `csv` crate model) -/

/-- Split a character list at every occurrence of `sep` (occurrences are
consumed; always returns at least one, possibly empty, segment). -/
def splitOnChar (sep : Char) : List Char → List (List Char)
  | [] => [[]]
  | c :: rest =>
    let r := splitOnChar sep rest
    if c = sep then [] :: r
    else
      match r with
      | [] => [[c]]
      | l :: ls => (c :: l) :: ls

/-- Strip one trailing carriage return (the csv crate's default terminator
accepts both LF and CRLF). -/
def stripCR (l : List Char) : List Char :=
  if l.getLast? = some '\r' then l.dropLast else l

/-- Byte-level record reader of the external `csv` crate in the
configuration built by `Csv::reader_builder` (default delimiter `,`,
terminator LF/CRLF, empty records skipped), restricted to quote-free
content — the byte grammar of CSV is external to this repository and every
input exercised below is quote-free.  Yields the stream's records, each as
its list of fields. -/
def csvSplit (input : List Char) : List (List String) :=
  (((splitOnChar '\n' input).map stripCR).filter (· ≠ [])).map
    (fun line => (splitOnChar ',' line).map (fun cs => String.mk cs))

/- ## Format implementations -/

/-- `Json::is_valid_header` (src/formats/json.rs lines 25–27): examines
`header[0]`.  Rust slice indexing panics on an empty slice; the panic is
modelled as `none`. -/
def Json.is_valid_header (header : List Char) : Option Bool :=
  match header with
  | [] => none
  | c :: _ => some (c == '[' || c == '\x7b')

/-- `Csv::is_valid_header` (src/formats/csv.rs lines 114–127): parse the
prefix with headers enabled and try to deserialize one data row into a map;
`Some(row)` answers whether that succeeded, `None` (no data row) answers
`false`.  With the crate's strict field-count checking, deserializing the
first data row succeeds exactly when its field count equals the header's.
Never panics. -/
def Csv.is_valid_header (header : List Char) : Option Bool :=
  some (match csvSplit header with
    | hdr :: row1 :: _ => row1.length == hdr.length
    | _ => false)

/-- Errors out of `Csv::parse`: `dataErr` is an `EachError::Data` raised by
the source itself; `unequalLengths` is the external csv crate's strict
field-count error (`ReaderBuilder`'s default `flexible == false`), carrying
the 0-based index of the offending data row. -/
inductive ParseErr where
  | dataErr (msg : String)
  | unequalLengths (row : Nat)
deriving DecidableEq

/-- The data-row loop of `Csv::parse` (src/formats/csv.rs lines 143–162),
at data-row index `i`.  The crate's iterator yields an `UnequalLengths`
error for a record whose field count differs from the first record's (the
header), surfaced by the `?` on `result`; the source's own check at lines
146–154 follows it verbatim (and is therefore unreachable). -/
def Csv.parseRowsFrom (header : List String) (i : Nat) :
    List (List String) → Except ParseErr (List JValue)
  | [] => .ok []
  | cols :: rest =>
    if cols.length ≠ header.length then
      .error (.unequalLengths i)
    else if cols.length ≠ header.length then
      .error (.dataErr ("Row " ++ toString i ++
        " has different number of records than the header"))
    else
      (Csv.parseRowsFrom header (i + 1) rest).map
        (fun vs => JValue.obj (buildRecord header cols) :: vs)

/-- `Csv::parse` (src/formats/csv.rs lines 129–165) over the record stream:
the first record is the header; no first record is a Data error ("Header
row is empty"); each data row becomes one ordered string→string record. -/
def Csv.parseRows (rows : List (List String)) : Except ParseErr (List JValue) :=
  match rows with
  | [] => .error (.dataErr "Header row is empty")
  | header :: rest => Csv.parseRowsFrom header 0 rest

/-- `Csv::parse` on raw bytes. -/
def Csv.parse (input : List Char) : Except ParseErr (List JValue) :=
  Csv.parseRows (csvSplit input)

/-- `EachError` (src/main.rs lines 40–48): the three error classes. -/
inductive EachError where
  | usage (message : String)
  | data (message : String)
  | io (message : String)
deriving DecidableEq

/-- How `run` (src/main.rs lines 377–384) classifies a failed parse: every
parse error is wrapped into `EachError::Data`. -/
def parseErrMsg : ParseErr → String
  | .dataErr m => m
  | .unequalLengths i =>
    "record " ++ toString i ++
      ": found record with a different number of fields than the header"

def parseErrToEach (e : ParseErr) : EachError :=
  .data ("failed to parse input: " ++ parseErrMsg e)

/- ## Format registry and resolution -/

/-- The slice of the `Format` trait that format resolution uses: id (the
`IndexMap` key), extensions, and header sniffing (`none` models a panic). -/
structure FormatD where
  id : String
  exts : List String
  sniff : List Char → Option Bool

def jsonFormat : FormatD := ⟨"json", ["json"], Json.is_valid_header⟩

def csvFormat : FormatD := ⟨"csv", ["csv"], Csv.is_valid_header⟩

/-- `load_formats` (src/formats/mod.rs lines 23–29): Json is registered
first, then Csv; `IndexMap` iterates in insertion order. -/
def load_formats : List FormatD := [jsonFormat, csvFormat]

/-- The extension loop of `guess_format`: first registered format whose
extension list contains the hint. -/
def findByExt (e : String) : List FormatD → Option FormatD
  | [] => none
  | f :: fs => if f.exts.contains e then some f else findByExt e fs

/-- The sniffing loop of `guess_format`: first registered format whose
`is_valid_header` answers true on the buffer.  The outer `none` propagates
a panic inside a sniffer; the code's `if let Ok(..)` skip of `Err` values
has no counterpart because neither registered format ever returns `Err`. -/
def sniffFirst (buf : List Char) : List FormatD → Option (Option FormatD)
  | [] => some none
  | f :: fs =>
    match f.sniff buf with
    | none => none
    | some true => some (some f)
    | some false => sniffFirst buf fs

def nulChar : Char := Char.ofNat 0

/-- `guess_format` (src/main.rs lines 222–251): extension match first;
otherwise perform one `read` of up to `CACHE_LEN` bytes into a
zero-initialised `[0; CACHE_LEN]` array, rewind the reader, and sniff each
format on the **whole array** — the bytes actually read followed by the
remaining zero padding. -/
def guessFormat (ext : Option String) (r : CachedReader) (formats : List FormatD) :
    Option (Option FormatD) × CachedReader :=
  match ext.bind (fun e => findByExt e formats) with
  | some f => (some (some f), r)
  | none =>
    let res := r.read CACHE_LEN
    let buf := res.1 ++ List.replicate (CACHE_LEN - res.1.length) nulChar
    (sniffFirst buf formats, res.2.rewind)

/-- Outcome of format selection in `run`. -/
inductive ResolveResult where
  | ok (fmtId : String)
  | usage (message : String)
  | dataErr (message : String)
  | panicked
deriving DecidableEq

/-- Format selection in `run` (src/main.rs lines 357–375): an explicit
format id is looked up in the registry without touching the reader (an
unknown id is a Usage error); otherwise `guess_format` decides, and no
match is a Data error. -/
def resolveFormat (explicit : Option String) (ext : Option String)
    (r : CachedReader) (formats : List FormatD) : ResolveResult × CachedReader :=
  match explicit with
  | some fid =>
    match formats.find? (fun f => f.id == fid) with
    | some f => (.ok f.id, r)
    | none => (.usage ("Unknown format: " ++ fid), r)
  | none =>
    match guessFormat ext r formats with
    | (some (some f), r') => (.ok f.id, r')
    | (some none, r') => (.dataErr "Unable to guess format for input", r')
    | (none, r') => (.panicked, r')

/- ## Tabular encoding -/

/-- Errors out of `Csv::write`: `data` is a reported `EachError::Data`;
`panic` models a Rust panic (`unreachable!`, slice index out of bounds, or
`serde_json::Map`'s panicking `Index` on a missing key). -/
inductive WriteErr where
  | data (msg : String)
  | panic (msg : String)
deriving DecidableEq

/-- One iteration of the output loop in `Csv::write` (src/formats/csv.rs
lines 182–199): a non-object record hits `unreachable!` (a panic, not a
reported error); otherwise each header key is looked up (a missing key
panics in `Map`'s `Index`) and rendered with `as_str`, falling back to
`serde_json::to_string`. -/
def Csv.writeRow (header : List String) (v : JValue) : Except WriteErr (List String) :=
  match v.asObject with
  | none => .error (.panic "internal error: entered unreachable code: The shape of each row must be the same as the header")
  | some fields =>
    header.mapM fun k =>
      match lookupKV fields k with
      | none => .error (.panic "key not found")
      | some x => .ok (match x.asStr with
          | some s => s
          | none => jsonToString x)

/-- `Csv::write` (src/formats/csv.rs lines 167–203) at the record level:
`values[0]` (a panic on an empty vector) provides the header — a Data error
if it is not an object — then the header row and one row per record (the
first record included) are emitted. -/
def Csv.write (values : List JValue) : Except WriteErr (List (List String)) :=
  match values with
  | [] => .error (.panic "index out of bounds: the len is 0 but the index is 0")
  | v0 :: _ =>
    match v0.asObject with
    | none => .error (.data ("Data to write must be an object, received: " ++ jsonToString v0))
    | some fields =>
      let header := fields.map Prod.fst
      (values.mapM (Csv.writeRow header)).map (fun rows => header :: rows)

/- ## Helper lemmas about the record splitter -/

theorem splitOnChar_cons_sep (sep : Char) (rest : List Char) :
    splitOnChar sep (sep :: rest) = [] :: splitOnChar sep rest := by
  conv_lhs => rw [splitOnChar]
  simp

theorem splitOnChar_cons_ne (sep c : Char) (rest : List Char) (h : c ≠ sep)
    (l : List Char) (ls : List (List Char)) (hr : splitOnChar sep rest = l :: ls) :
    splitOnChar sep (c :: rest) = (c :: l) :: ls := by
  conv_lhs => rw [splitOnChar]
  simp only [h, if_false, hr]

theorem splitOnChar_ne_nil (sep : Char) (l : List Char) : splitOnChar sep l ≠ [] := by
  cases l with
  | nil => simp [splitOnChar]
  | cons c rest =>
    by_cases h : c = sep
    · rw [h, splitOnChar_cons_sep]
      simp
    · cases hr : splitOnChar sep rest with
      | nil =>
        conv_lhs => rw [splitOnChar]
        simp only [h, if_false, hr]
        simp
      | cons a as =>
        rw [splitOnChar_cons_ne sep c rest h a as hr]
        simp

theorem splitOnChar_eq_single (sep : Char) (l : List Char) (h : sep ∉ l) :
    splitOnChar sep l = [l] := by
  induction l with
  | nil => rfl
  | cons c rest ih =>
    have hc : c ≠ sep := fun hh => h (hh ▸ List.mem_cons_self c rest)
    have hrest : sep ∉ rest := fun hm => h (List.mem_cons_of_mem c hm)
    exact splitOnChar_cons_ne sep c rest hc rest [] (ih hrest)

theorem splitOnChar_append_sep (sep : Char) (a b : List Char) (ha : sep ∉ a) :
    splitOnChar sep (a ++ sep :: b) = a :: splitOnChar sep b := by
  induction a with
  | nil => simpa using splitOnChar_cons_sep sep b
  | cons c rest ih =>
    have hc : c ≠ sep := fun hh => ha (hh ▸ List.mem_cons_self c rest)
    have hrest : sep ∉ rest := fun hm => ha (List.mem_cons_of_mem c hm)
    cases hb : splitOnChar sep b with
    | nil => exact absurd hb (splitOnChar_ne_nil sep b)
    | cons l ls =>
      rw [hb] at ih
      exact splitOnChar_cons_ne sep c _ hc rest (l :: ls) (ih hrest)

theorem getLast?_replicate (c : Char) (n : Nat) :
    (List.replicate n c).getLast? = if n = 0 then none else some c := by
  induction n with
  | zero => rfl
  | succ n ih =>
    cases n with
    | zero => rfl
    | succ m =>
      rw [List.replicate_succ, List.replicate_succ, List.getLast?_cons_cons,
        ← List.replicate_succ, ih]
      simp

theorem stripCR_of_getLast?_ne (l : List Char) (h : l.getLast? ≠ some '\r') :
    stripCR l = l := by
  unfold stripCR
  simp [h]

/- ## Helper lemmas for format resolution -/

/-- One `read` of `CACHE_LEN` bytes from a fresh reader over a single chunk
that fits the cache: the whole chunk is delivered and cached. -/
theorem read_new_single_chunk (input : List Char) (h : input.length ≤ CACHE_LEN) :
    (CachedReader.new [input]).read CACHE_LEN =
      (input, ⟨input, input.length, []⟩) := by
  unfold CachedReader.new
  rw [CachedReader.read_source_case _ _ (by simp)]
  rw [srcRead_cons, if_pos h]
  simp [CACHE_LEN]

/-- The zero-padded array that `guess_format` passes to every
`is_valid_header`: the bytes delivered by one `read` of `CACHE_LEN`,
followed by the untouched zero initialisation of `[0; CACHE_LEN]`. -/
def sniffBuf (r : CachedReader) : List Char :=
  (r.read CACHE_LEN).1 ++
    List.replicate (CACHE_LEN - (r.read CACHE_LEN).1.length) nulChar

theorem sniffBuf_new_single (input : List Char) (h : input.length ≤ CACHE_LEN) :
    sniffBuf (CachedReader.new [input]) =
      input ++ List.replicate (CACHE_LEN - input.length) nulChar := by
  unfold sniffBuf
  rw [read_new_single_chunk input h]

theorem findByExt_eq_none (e : String) (formats : List FormatD)
    (h : ∀ g ∈ formats, ¬ g.exts.contains e) : findByExt e formats = none := by
  induction formats with
  | nil => rfl
  | cons g gs ih =>
    unfold findByExt
    rw [if_neg (h g (List.mem_cons_self g gs))]
    exact ih fun g' hg' => h g' (List.mem_cons_of_mem g hg')

theorem findByExt_first (e : String) (pre : List FormatD) (f : FormatD)
    (post : List FormatD) (hpre : ∀ g ∈ pre, ¬ g.exts.contains e)
    (hf : f.exts.contains e) : findByExt e (pre ++ f :: post) = some f := by
  induction pre with
  | nil =>
    unfold findByExt
    simp only [List.nil_append]
    rw [if_pos hf]
  | cons g gs ih =>
    rw [List.cons_append]
    unfold findByExt
    rw [if_neg (hpre g (List.mem_cons_self g gs))]
    exact ih fun g' hg' => hpre g' (List.mem_cons_of_mem g hg')

theorem sniffFirst_nomatch (buf : List Char) (formats : List FormatD)
    (h : ∀ g ∈ formats, g.sniff buf = some false) :
    sniffFirst buf formats = some none := by
  induction formats with
  | nil => rfl
  | cons g gs ih =>
    unfold sniffFirst
    rw [h g (List.mem_cons_self g gs)]
    exact ih fun g' hg' => h g' (List.mem_cons_of_mem g hg')

theorem sniffFirst_first (buf : List Char) (pre : List FormatD) (f : FormatD)
    (post : List FormatD) (hpre : ∀ g ∈ pre, g.sniff buf = some false)
    (hf : f.sniff buf = some true) :
    sniffFirst buf (pre ++ f :: post) = some (some f) := by
  induction pre with
  | nil =>
    rw [List.nil_append]
    unfold sniffFirst
    rw [hf]
  | cons g gs ih =>
    rw [List.cons_append]
    unfold sniffFirst
    rw [hpre g (List.mem_cons_self g gs)]
    exact ih fun g' hg' => hpre g' (List.mem_cons_of_mem g hg')

theorem guessFormat_sniff_case (ext : Option String) (r : CachedReader)
    (formats : List FormatD)
    (hext : ext.bind (fun e => findByExt e formats) = none) :
    guessFormat ext r formats =
      (sniffFirst (sniffBuf r) formats, (r.read CACHE_LEN).2.rewind) := by
  unfold guessFormat
  rw [hext]
  rfl

theorem resolveFormat_explicit (fid : String) (ext : Option String)
    (r : CachedReader) (formats : List FormatD) :
    resolveFormat (some fid) ext r formats =
      (match formats.find? (fun f => f.id == fid) with
        | some f => (ResolveResult.ok f.id, r)
        | none => (ResolveResult.usage ("Unknown format: " ++ fid), r)) := rfl

theorem resolveFormat_auto (ext : Option String) (r : CachedReader)
    (formats : List FormatD) :
    resolveFormat none ext r formats =
      (match guessFormat ext r formats with
        | (some (some f), r') => (ResolveResult.ok f.id, r')
        | (some none, r') =>
          (ResolveResult.dataErr "Unable to guess format for input", r')
        | (none, r') => (ResolveResult.panicked, r')) := rfl

/- ## Claim C10 -/

/-- **C10**: decoding an empty tabular byte stream (no rows at all) fails
with the Data error "Header row is empty" — classified as an
`EachError::Data` by `run` — rather than yielding an empty record
sequence. -/
theorem C10_empty_tabular_input_is_data_error :
    Csv.parse [] = .error (.dataErr "Header row is empty") ∧
    parseErrToEach (.dataErr "Header row is empty") =
      .data ("failed to parse input: " ++ "Header row is empty") :=
  ⟨rfl, rfl⟩

/- ## Claim C7 -/

/-- **C7**: the claim that tabular encode reports an error for a non-object
record *in any position* fails on the code: a non-object in first position
is a reported Data error, but a non-object in a later position hits the
`unreachable!` at src/formats/csv.rs line 185, i.e. a panic, not a
reported error. -/
theorem C7_csv_write_later_nonobject_panics :
    Csv.write [JValue.num 42] =
      .error (.data "Data to write must be an object, received: 42") ∧
    Csv.write [JValue.obj [("a", JValue.num 1)], JValue.num 42] =
      .error (.panic "internal error: entered unreachable code: The shape of each row must be the same as the header") :=
  ⟨rfl, rfl⟩

/- ## Claim C6 -/

/-- **C6 counterexample**: the claim that every registered format's header
sniff returns a value on *every* byte slice, the empty slice included,
fails on the code: `Json::is_valid_header` indexes `header[0]`, which
panics (modelled as `none`) on the empty slice. -/
theorem C6_counterexample_json_sniff_empty_panics :
    Json.is_valid_header [] = none := rfl

/-- **C6 (amended)**: on every *non-empty* byte slice — truncated or
garbage content included — `Json::is_valid_header` returns a value, and
`Csv::is_valid_header` returns a value on every byte slice (the empty one
included); neither panics there. -/
theorem C6_sniff_total_on_nonempty :
    (∀ h : List Char, h ≠ [] → (Json.is_valid_header h).isSome) ∧
    (∀ h : List Char, (Csv.is_valid_header h).isSome) := by
  constructor
  · intro h hne
    cases h with
    | nil => exact absurd rfl hne
    | cons c rest => rfl
  · intro h
    rfl

/-- Witness for the amended C6 at the one-byte slice `"x"`. -/
theorem C6_witness :
    (['x'] : List Char) ≠ [] ∧ (Json.is_valid_header ['x']).isSome :=
  ⟨by decide, C6_sniff_total_on_nonempty.1 ['x'] (by decide)⟩

/- ## Concrete sniffing computations -/

/-- A stream with no record terminator is a single record. -/
theorem csvSplit_single_line (l : List Char) (h : '\n' ∉ l)
    (hcr : l.getLast? ≠ some '\r') (hne : l ≠ []) :
    csvSplit l = [(splitOnChar ',' l).map (fun cs => String.mk cs)] := by
  unfold csvSplit
  rw [splitOnChar_eq_single '\n' l h]
  simp [stripCR_of_getLast?_ne l hcr, hne]

/-- Peeling one terminated record off the front of a stream. -/
theorem csvSplit_cons_line (a rest : List Char) (ha : '\n' ∉ a)
    (hacr : a.getLast? ≠ some '\r') (hane : a ≠ []) :
    csvSplit (a ++ '\n' :: rest) =
      ((splitOnChar ',' a).map (fun cs => String.mk cs)) :: csvSplit rest := by
  unfold csvSplit
  rw [splitOnChar_append_sep '\n' a rest ha]
  simp [stripCR_of_getLast?_ne a hacr, hane]

theorem csvSniff_single_line (l : List Char) (h : '\n' ∉ l)
    (hcr : l.getLast? ≠ some '\r') (hne : l ≠ []) :
    Csv.is_valid_header l = some false := by
  unfold Csv.is_valid_header
  rw [csvSplit_single_line l h hcr hne]

/-- Shape facts about the zero padding `guess_format` leaves in the sniff
array. -/
theorem replicate_nul_facts (n : Nat) (hn : n ≠ 0) :
    '\n' ∉ List.replicate n nulChar ∧
    (List.replicate n nulChar).getLast? ≠ some '\r' ∧
    List.replicate n nulChar ≠ ([] : List Char) ∧
    ',' ∉ List.replicate n nulChar := by
  refine ⟨?_, ?_, ?_, ?_⟩
  · intro hmem
    rw [List.mem_replicate] at hmem
    exact absurd hmem.2 (by decide)
  · rw [getLast?_replicate, if_neg hn]
    intro hh
    exact absurd (Option.some.inj hh) (by decide)
  · intro hh
    exact hn (by simpa using congrArg List.length hh)
  · intro hmem
    rw [List.mem_replicate] at hmem
    exact absurd hmem.2 (by decide)

theorem getLast?_cons_replicate (d : Char) (n : Nat) :
    ∀ c, (c :: List.replicate n d).getLast? = some (if n = 0 then c else d) := by
  induction n with
  | zero => intro c; rfl
  | succ n ih =>
    intro c
    rw [List.replicate_succ, List.getLast?_cons_cons, ih d]
    simp

/-- A single byte followed by zero padding sniffs as non-tabular: the
stream holds only one record, so there is no data row to validate. -/
theorem csvSniff_char_padded (c : Char) (n : Nat) (hn : n ≠ 0)
    (hc1 : c ≠ '\n') :
    Csv.is_valid_header (c :: List.replicate n nulChar) = some false := by
  obtain ⟨h1, h2, _, _⟩ := replicate_nul_facts n hn
  apply csvSniff_single_line
  · intro hm
    rcases List.mem_cons.mp hm with h | h
    · exact hc1 h.symm
    · exact h1 h
  · rw [getLast?_cons_replicate nulChar n c, if_neg hn]
    intro hh
    exact absurd (Option.some.inj hh) (by decide)
  · simp

/- ## Claim C2 -/

/-- **C2 (amended)**: format resolution follows the priority: (1) an
explicit id that is unknown fails with a Usage error with the reader
untouched (no input bytes read); (2) else an extension hint selects the
first format in registration order whose extension set contains it, reader
untouched; (3) else one read of up to `CACHE_LEN` bytes is taken, the
reader rewound, and the first format in registration order whose sniff
answers true **on that prefix zero-padded to `CACHE_LEN` bytes** is
selected; (4) if no sniff answers true the result is a Data error, a class
distinct from Usage errors. -/
theorem C2_format_resolution (formats : List FormatD) (r : CachedReader)
    (ext : Option String) :
    (∀ fid, (∀ f ∈ formats, f.id ≠ fid) →
      resolveFormat (some fid) ext r formats =
        (.usage ("Unknown format: " ++ fid), r)) ∧
    (∀ e pre f post, formats = pre ++ f :: post →
      (∀ g ∈ pre, ¬ g.exts.contains e) → f.exts.contains e →
      resolveFormat none (some e) r formats = (.ok f.id, r)) ∧
    ((∀ e, ext = some e → ∀ g ∈ formats, ¬ g.exts.contains e) →
      (∀ pre f post, formats = pre ++ f :: post →
        (∀ g ∈ pre, g.sniff (sniffBuf r) = some false) →
        f.sniff (sniffBuf r) = some true →
        resolveFormat none ext r formats =
          (.ok f.id, (r.read CACHE_LEN).2.rewind)) ∧
      ((∀ f ∈ formats, f.sniff (sniffBuf r) = some false) →
        resolveFormat none ext r formats =
          (.dataErr "Unable to guess format for input",
            (r.read CACHE_LEN).2.rewind))) ∧
    (∀ m m', ResolveResult.dataErr m ≠ ResolveResult.usage m') := by
  refine ⟨?_, ?_, ?_, ?_⟩
  · intro fid hp
    have hn : formats.find? (fun f => f.id == fid) = none :=
      List.find?_eq_none.mpr (by intro x hx; simpa using hp x hx)
    rw [resolveFormat_explicit, hn]
  · intro e pre f post hfmt hpre hfe
    subst hfmt
    have hg : guessFormat (some e) r (pre ++ f :: post) = (some (some f), r) := by
      unfold guessFormat
      rw [show ((some e).bind fun e' => findByExt e' (pre ++ f :: post)) = some f
        from findByExt_first e pre f post hpre hfe]
    rw [resolveFormat_auto, hg]
  · intro hnoext
    have hbind : ext.bind (fun e => findByExt e formats) = none := by
      cases ext with
      | none => rfl
      | some e =>
        exact findByExt_eq_none e formats (hnoext e rfl)
    constructor
    · intro pre f post hfmt hpre hf
      have hg := guessFormat_sniff_case ext r formats hbind
      rw [hfmt] at hg ⊢
      rw [hfmt] at hbind
      rw [sniffFirst_first (sniffBuf r) pre f post hpre hf] at hg
      rw [resolveFormat_auto, hg]
    · intro hall
      have hg := guessFormat_sniff_case ext r formats hbind
      rw [sniffFirst_nomatch (sniffBuf r) formats hall] at hg
      rw [resolveFormat_auto, hg]
  · intro m m' h
    exact ResolveResult.noConfusion h

/-- **C2 counterexample**: on the input `"a\n"` (with no explicit id and no
extension hint) *neither* registered format's header sniff answers true on
the bytes actually read — so the claim's step 3 selects nothing and its
step 4 mandates a Data error — yet resolution returns the tabular format:
the code sniffs the prefix zero-padded to `CACHE_LEN` bytes, and the
padding line makes the CSV sniffer see a data row. -/
theorem C2_counterexample_sniff_on_padding :
    Json.is_valid_header ['a', '\n'] = some false ∧
    Csv.is_valid_header ['a', '\n'] = some false ∧
    (resolveFormat none none (CachedReader.new [['a', '\n']]) load_formats).1 =
      .ok "csv" := by
  refine ⟨rfl, by decide, ?_⟩
  have hbuf : sniffBuf (CachedReader.new [['a', '\n']]) =
      ['a'] ++ '\n' :: List.replicate (CACHE_LEN - 2) nulChar := by
    rw [sniffBuf_new_single _ (by decide)]
    simp
  have hn : (CACHE_LEN - 2) ≠ 0 := by norm_num [CACHE_LEN]
  obtain ⟨h1, h2, h3, h4⟩ := replicate_nul_facts (CACHE_LEN - 2) hn
  have hjson : jsonFormat.sniff (sniffBuf (CachedReader.new [['a', '\n']])) =
      some false := by
    rw [hbuf]; rfl
  have hcsv : csvFormat.sniff (sniffBuf (CachedReader.new [['a', '\n']])) =
      some true := by
    rw [show csvFormat.sniff = Csv.is_valid_header from rfl, hbuf]
    unfold Csv.is_valid_header
    rw [csvSplit_cons_line ['a'] _ (by decide) (by decide) (by decide),
      csvSplit_single_line _ h1 h2 h3, splitOnChar_eq_single ',' _ h4]
    rfl
  have hsf : sniffFirst (sniffBuf (CachedReader.new [['a', '\n']])) load_formats =
      some (some csvFormat) :=
    sniffFirst_first _ [jsonFormat] csvFormat []
      (by intro g hg; rw [List.mem_singleton] at hg; subst hg; exact hjson) hcsv
  have hg := guessFormat_sniff_case none (CachedReader.new [['a', '\n']])
    load_formats rfl
  rw [hsf] at hg
  rw [resolveFormat_auto, hg]
  rfl

/-- Witness for the amended C2, exercising all four priority steps at
concrete inputs: an unknown explicit id, a matching extension hint, a
content sniff that selects JSON, and a sniff where nothing matches. -/
theorem C2_witness :
    resolveFormat (some "xxx") none (CachedReader.new [['x']]) load_formats =
      (.usage ("Unknown format: " ++ "xxx"), CachedReader.new [['x']]) ∧
    resolveFormat none (some "csv") (CachedReader.new [['x']]) load_formats =
      (.ok csvFormat.id, CachedReader.new [['x']]) ∧
    resolveFormat none none (CachedReader.new [['\x7b', '\x7d']]) load_formats =
      (.ok jsonFormat.id,
        ((CachedReader.new [['\x7b', '\x7d']]).read CACHE_LEN).2.rewind) ∧
    resolveFormat none none (CachedReader.new [['x']]) load_formats =
      (.dataErr "Unable to guess format for input",
        ((CachedReader.new [['x']]).read CACHE_LEN).2.rewind) := by
  have hmem2 : ∀ f ∈ load_formats, f = jsonFormat ∨ f = csvFormat := by
    intro f hf
    rcases List.mem_cons.mp hf with h | hf'
    · exact Or.inl h
    · exact Or.inr (List.mem_singleton.mp hf')
  refine ⟨?_, ?_, ?_, ?_⟩
  · apply (C2_format_resolution load_formats (CachedReader.new [['x']]) none).1
    intro f hf
    rcases hmem2 f hf with rfl | rfl
    · decide
    · decide
  · exact (C2_format_resolution load_formats (CachedReader.new [['x']]) none).2.1
      "csv" [jsonFormat] csvFormat [] rfl
      (by intro g hg; rw [List.mem_singleton] at hg; subst hg; decide)
      (by decide)
  · apply ((C2_format_resolution load_formats (CachedReader.new [['\x7b', '\x7d']])
      none).2.2.1 (by intro e he; cases he)).1 [] jsonFormat [csvFormat] rfl
      (by intro g hg; exact absurd hg (List.not_mem_nil g))
    rw [sniffBuf_new_single _ (by decide)]
    rfl
  · apply ((C2_format_resolution load_formats (CachedReader.new [['x']])
      none).2.2.1 (by intro e he; cases he)).2
    intro f hf
    have hbuf : sniffBuf (CachedReader.new [['x']]) =
        ['x'] ++ List.replicate (CACHE_LEN - 1) nulChar := by
      rw [sniffBuf_new_single _ (by decide)]
      norm_num
    rcases hmem2 f hf with rfl | rfl
    · rw [show jsonFormat.sniff = Json.is_valid_header from rfl, hbuf]
      rfl
    · rw [show csvFormat.sniff = Csv.is_valid_header from rfl, hbuf]
      exact csvSniff_char_padded 'x' (CACHE_LEN - 1)
        (by norm_num [CACHE_LEN]) (by decide)

/- ## Claim C8 -/

/-- After a rewind with the whole (cached) input in the buffer, one read of
`CACHE_LEN` bytes replays the entire input. -/
theorem readSeq_single_replay (buf : List Char) (hne : 0 < buf.length)
    (hlen : buf.length ≤ CACHE_LEN) :
    ((CachedReader.mk buf 0 []).readSeq [CACHE_LEN]).1 = buf := by
  unfold CachedReader.readSeq
  rw [CachedReader.read_buffer_case _ _ (by simpa using hne)]
  unfold CachedReader.readSeq
  simp [Nat.min_eq_left hlen]

/-- **C8** (Scenario B): on the input `"name,email\nBart,bart@example.com\n"`
with no explicit format id and no extension hint, resolution sniffs the
content and selects the tabular format (not JSON: its sniffer answers false
on the sniffed buffer); the rewound reader replays the full input; and
decoding yields exactly the one-record sequence
`[{"name":"Bart","email":"bart@example.com"}]`, fields in column order. -/
theorem C8_scenario_b :
    (resolveFormat none none
        (CachedReader.new ["name,email\nBart,bart@example.com\n".toList])
        load_formats).1 = .ok "csv" ∧
    Json.is_valid_header (sniffBuf
        (CachedReader.new ["name,email\nBart,bart@example.com\n".toList])) =
      some false ∧
    ((resolveFormat none none
        (CachedReader.new ["name,email\nBart,bart@example.com\n".toList])
        load_formats).2.readSeq [CACHE_LEN]).1 =
      "name,email\nBart,bart@example.com\n".toList ∧
    Csv.parse "name,email\nBart,bart@example.com\n".toList =
      .ok [JValue.obj [("name", JValue.str "Bart"),
        ("email", JValue.str "bart@example.com")]] := by
  obtain ⟨h1, h2, h3, h4⟩ := replicate_nul_facts 4063 (by decide)
  have hbuf : sniffBuf
      (CachedReader.new ["name,email\nBart,bart@example.com\n".toList]) =
      "name,email".toList ++ '\n' ::
        ("Bart,bart@example.com".toList ++ '\n' ::
          List.replicate 4063 nulChar) := by
    rw [sniffBuf_new_single _ (by decide)]
    rw [show (CACHE_LEN -
        ("name,email\nBart,bart@example.com\n".toList).length) = 4063 by decide]
    rw [show ("name,email\nBart,bart@example.com\n".toList : List Char) =
      "name,email".toList ++ '\n' :: ("Bart,bart@example.com".toList ++ ['\n'])
      by decide]
    rw [List.append_assoc, List.cons_append, List.append_assoc,
      List.singleton_append]
  have hjson : jsonFormat.sniff (sniffBuf
      (CachedReader.new ["name,email\nBart,bart@example.com\n".toList])) =
      some false := by
    rw [show jsonFormat.sniff = Json.is_valid_header from rfl, hbuf]
    rfl
  have hcsv : csvFormat.sniff (sniffBuf
      (CachedReader.new ["name,email\nBart,bart@example.com\n".toList])) =
      some true := by
    rw [show csvFormat.sniff = Csv.is_valid_header from rfl, hbuf]
    unfold Csv.is_valid_header
    rw [csvSplit_cons_line _ _ (by decide) (by decide) (by decide),
      csvSplit_cons_line _ _ (by decide) (by decide) (by decide),
      csvSplit_single_line _ h1 h2 h3]
    rfl
  have hsf : sniffFirst (sniffBuf
      (CachedReader.new ["name,email\nBart,bart@example.com\n".toList]))
      load_formats = some (some csvFormat) :=
    sniffFirst_first _ [jsonFormat] csvFormat []
      (by intro g hg; rw [List.mem_singleton] at hg; subst hg; exact hjson) hcsv
  have hg := guessFormat_sniff_case none
    (CachedReader.new ["name,email\nBart,bart@example.com\n".toList])
    load_formats rfl
  rw [hsf] at hg
  refine ⟨?_, hjson, ?_, ?_⟩
  · rw [resolveFormat_auto, hg]
    rfl
  · rw [resolveFormat_auto, hg]
    show ((((CachedReader.new
        ["name,email\nBart,bart@example.com\n".toList]).read
          CACHE_LEN).2.rewind).readSeq [CACHE_LEN]).1 =
      "name,email\nBart,bart@example.com\n".toList
    rw [read_new_single_chunk _ (by decide)]
    exact readSeq_single_replay _ (by decide) (by decide)
  · unfold Csv.parse
    rw [show csvSplit "name,email\nBart,bart@example.com\n".toList =
      [["name", "email"], ["Bart", "bart@example.com"]] by decide]
    rfl

/- ## Claim C3: counterexample -/

/-- **C3 counterexample**: the round-trip claim fails for records with
non-string field values: `[{"a": 42}]` encodes to the rows
`[["a"], ["42"]]` (the number is stringified by `serde_json::to_string`)
and decodes back to `[{"a": "42"}]`, which differs from the original. -/
theorem C3_counterexample_nonstring_value :
    Csv.write [JValue.obj [("a", JValue.num 42)]] = .ok [["a"], ["42"]] ∧
    Csv.parseRows [["a"], ["42"]] = .ok [JValue.obj [("a", JValue.str "42")]] ∧
    JValue.obj [("a", JValue.str "42")] ≠ JValue.obj [("a", JValue.num 42)] := by
  refine ⟨rfl, rfl, ?_⟩
  intro h
  simp only [JValue.obj.injEq, List.cons.injEq, Prod.mk.injEq] at h
  exact JValue.noConfusion h.1.2

/- ## Claim C3: the amended round trip -/

/-- A record as tabular decode produces it: an object whose key list is
exactly `ks` and whose values are all strings. -/
def StrRecord (ks : List String) (v : JValue) : Prop :=
  ∃ fields, v = JValue.obj fields ∧ fields.map Prod.fst = ks ∧
    ∀ kv ∈ fields, ∃ s, kv.2 = JValue.str s

theorem exceptMapM_congr {α β ε : Type} (l : List α) (f g : α → Except ε β)
    (h : ∀ a ∈ l, f a = g a) : l.mapM f = l.mapM g := by
  induction l with
  | nil => rfl
  | cons a as ih =>
    rw [List.mapM_cons, List.mapM_cons, h a (List.mem_cons_self a as),
      ih fun a' ha' => h a' (List.mem_cons_of_mem a ha')]

theorem lookupKV_cons_ne (k' : String) (v' : JValue)
    (rest : List (String × JValue)) (k : String) (h : k' ≠ k) :
    lookupKV ((k', v') :: rest) k = lookupKV rest k := by
  conv_lhs => rw [lookupKV]
  rw [if_neg h]

theorem insertKV_append (acc : List (String × JValue)) (k : String) (v : JValue)
    (h : ∀ q ∈ acc, q.1 ≠ k) : insertKV acc k v = acc ++ [(k, v)] := by
  induction acc with
  | nil => rfl
  | cons q rest ih =>
    unfold insertKV
    rw [if_neg (h q (List.mem_cons_self q rest))]
    rw [ih fun q' hq' => h q' (List.mem_cons_of_mem q hq')]
    rfl

theorem foldl_insert_fresh (ps : List (String × String)) :
    ∀ acc : List (String × JValue), (ps.map Prod.fst).Nodup →
    (∀ p ∈ ps, ∀ q ∈ acc, q.1 ≠ p.1) →
    ps.foldl (fun m kc => insertKV m kc.1 (JValue.str kc.2)) acc =
      acc ++ ps.map (fun kc => (kc.1, JValue.str kc.2)) := by
  induction ps with
  | nil => intro acc _ _; simp
  | cons p ps' ih =>
    intro acc hnd hfresh
    rw [List.foldl_cons,
      insertKV_append acc p.1 (JValue.str p.2)
        (fun q hq => hfresh p (List.mem_cons_self p ps') q hq)]
    rw [List.map_cons] at hnd
    have hnd' := hnd.of_cons
    have hknotin : p.1 ∉ ps'.map Prod.fst := (List.nodup_cons.mp hnd).1
    have hfresh' : ∀ p' ∈ ps', ∀ q ∈ acc ++ [(p.1, JValue.str p.2)], q.1 ≠ p'.1 := by
      intro p' hp' q hq
      rcases List.mem_append.mp hq with hq | hq
      · exact hfresh p' (List.mem_cons_of_mem p hp') q hq
      · rw [List.mem_singleton] at hq
        subst hq
        intro hh
        exact hknotin (by rw [hh]; exact List.mem_map_of_mem Prod.fst hp')
    rw [ih (acc ++ [(p.1, JValue.str p.2)]) hnd' hfresh']
    simp

theorem map_id_of_mem {α : Type} (l : List α) (f : α → α)
    (h : ∀ a ∈ l, f a = a) : l.map f = l := by
  induction l with
  | nil => rfl
  | cons a as ih =>
    rw [List.map_cons, h a (List.mem_cons_self a as),
      ih fun a' ha' => h a' (List.mem_cons_of_mem a ha')]

/-- Rebuilding a record from its own key list and rendered string cells
recovers the record. -/
theorem buildRecord_str (fields : List (String × JValue))
    (hnd : (fields.map Prod.fst).Nodup)
    (hstr : ∀ kv ∈ fields, ∃ s, kv.2 = JValue.str s) :
    buildRecord (fields.map Prod.fst)
      (fields.map fun kv => kv.2.asStr.getD "") = fields := by
  unfold buildRecord
  rw [List.zip_map' Prod.fst (fun kv => kv.2.asStr.getD "") fields]
  rw [foldl_insert_fresh _ [] (by simpa [Function.comp] using hnd) (by simp)]
  rw [List.nil_append, List.map_map]
  apply map_id_of_mem
  intro kv hkv
  obtain ⟨s, hs⟩ := hstr kv hkv
  show (kv.1, JValue.str (kv.2.asStr.getD "")) = kv
  rw [hs]
  show (kv.1, JValue.str s) = kv
  rw [← hs]

/-- `Csv::write`'s row loop on a string-valued record with the record's own
key list as header renders exactly the record's values. -/
theorem writeRow_str : ∀ fields : List (String × JValue),
    (fields.map Prod.fst).Nodup →
    (∀ kv ∈ fields, ∃ s, kv.2 = JValue.str s) →
    Csv.writeRow (fields.map Prod.fst) (JValue.obj fields) =
      .ok (fields.map fun kv => kv.2.asStr.getD "") := by
  intro fields
  induction fields with
  | nil => intro _ _; rfl
  | cons kv rest ih =>
    intro hnd hstr
    obtain ⟨s, hs⟩ := hstr kv (List.mem_cons_self kv rest)
    rw [List.map_cons] at hnd ⊢
    have hknotin : kv.1 ∉ rest.map Prod.fst := (List.nodup_cons.mp hnd).1
    have htail := ih (List.nodup_cons.mp hnd).2
      fun kv' hkv' => hstr kv' (List.mem_cons_of_mem kv hkv')
    unfold Csv.writeRow at htail ⊢
    simp only [JValue.asObject] at htail ⊢
    rw [List.mapM_cons]
    have hhead : lookupKV (kv :: rest) kv.1 = some kv.2 := by
      show lookupKV ((kv.1, kv.2) :: rest) kv.1 = some kv.2
      conv_lhs => rw [lookupKV]
      rw [if_pos rfl]
    have hcongr : (rest.map Prod.fst).mapM (fun k =>
        match lookupKV (kv :: rest) k with
        | none => Except.error (WriteErr.panic "key not found")
        | some x => Except.ok (match x.asStr with
            | some s => s
            | none => jsonToString x)) =
        (rest.map Prod.fst).mapM (fun k =>
        match lookupKV rest k with
        | none => Except.error (WriteErr.panic "key not found")
        | some x => Except.ok (match x.asStr with
            | some s => s
            | none => jsonToString x)) := by
      apply exceptMapM_congr
      intro k hk
      rw [show (kv : String × JValue) = (kv.1, kv.2) from rfl,
        lookupKV_cons_ne kv.1 kv.2 rest k fun hh => hknotin (hh ▸ hk)]
    rw [hhead, hcongr, htail, List.map_cons, hs]
    rfl

/-- Writing then parsing the data rows is the identity on string-valued
records sharing the ordered key list `ks`. -/
theorem writeRows_parse (ks : List String) (hnd : ks.Nodup) :
    ∀ (vs : List JValue) (i : Nat), (∀ v ∈ vs, StrRecord ks v) →
    ∃ rows, vs.mapM (Csv.writeRow ks) = .ok rows ∧
      Csv.parseRowsFrom ks i rows = .ok vs := by
  intro vs
  induction vs with
  | nil => intro i _; exact ⟨[], rfl, rfl⟩
  | cons v vs' ih =>
    intro i hall
    obtain ⟨fields, hv, hks, hstr⟩ := hall v (List.mem_cons_self v vs')
    obtain ⟨rows', hm', hp'⟩ := ih (i + 1)
      (fun v' hv' => hall v' (List.mem_cons_of_mem v hv'))
    have hrow : Csv.writeRow ks (JValue.obj fields) =
        .ok (fields.map fun kv => kv.2.asStr.getD "") := by
      rw [← hks]
      exact writeRow_str fields (by rw [hks]; exact hnd) hstr
    have hlen : (fields.map fun kv => kv.2.asStr.getD "").length = ks.length := by
      rw [List.length_map, ← hks, List.length_map]
    refine ⟨(fields.map fun kv => kv.2.asStr.getD "") :: rows', ?_, ?_⟩
    · rw [List.mapM_cons, hv, hrow, hm']
      rfl
    · unfold Csv.parseRowsFrom
      rw [if_neg (by rw [hlen]; exact fun hh => hh rfl),
        if_neg (by rw [hlen]; exact fun hh => hh rfl), hp']
      show Except.ok (JValue.obj (buildRecord ks
        (fields.map fun kv => kv.2.asStr.getD "")) :: vs') = _
      rw [← hks, buildRecord_str fields (by rw [hks]; exact hnd) hstr, hv]

/-- **C3 (amended)**: for every non-empty sequence of records that are
objects sharing one ordered field list with all-string values (exactly the
shape tabular decode produces), encoding with the CSV format and then
decoding the produced rows yields the original sequence, field order
preserved. -/
theorem C3_csv_roundtrip (values : List JValue) (ks : List String)
    (hne : values ≠ []) (hnd : ks.Nodup)
    (hall : ∀ v ∈ values, StrRecord ks v) :
    ∃ rows, Csv.write values = .ok rows ∧ Csv.parseRows rows = .ok values := by
  obtain ⟨v0, vs, rfl⟩ := List.exists_cons_of_ne_nil hne
  obtain ⟨fields0, hv0, hks0, _⟩ := hall v0 (List.mem_cons_self v0 vs)
  obtain ⟨rows, hm, hp⟩ := writeRows_parse ks hnd (v0 :: vs) 0 hall
  refine ⟨ks :: rows, ?_, ?_⟩
  · unfold Csv.write
    rw [hv0]
    simp only [JValue.asObject]
    rw [hks0, ← hv0, hm]
    rfl
  · unfold Csv.parseRows
    exact hp

/-- Witness for the amended C3 at a concrete one-record sequence. -/
theorem C3_witness :
    ([JValue.obj [("name", JValue.str "Bart"),
        ("email", JValue.str "bart@example.com")]] : List JValue) ≠ [] ∧
    (["name", "email"] : List String).Nodup ∧
    (∀ v ∈ [JValue.obj [("name", JValue.str "Bart"),
        ("email", JValue.str "bart@example.com")]],
      StrRecord ["name", "email"] v) ∧
    ∃ rows,
      Csv.write [JValue.obj [("name", JValue.str "Bart"),
        ("email", JValue.str "bart@example.com")]] = .ok rows ∧
      Csv.parseRows rows = .ok [JValue.obj [("name", JValue.str "Bart"),
        ("email", JValue.str "bart@example.com")]] := by
  have hall : ∀ v ∈ [JValue.obj [("name", JValue.str "Bart"),
      ("email", JValue.str "bart@example.com")]],
      StrRecord ["name", "email"] v := by
    intro v hv
    rw [List.mem_singleton] at hv
    subst hv
    refine ⟨_, rfl, rfl, ?_⟩
    intro kv hkv
    rcases List.mem_cons.mp hkv with h | h2
    · exact ⟨"Bart", by rw [h]⟩
    · rw [List.mem_singleton] at h2
      exact ⟨"bart@example.com", by rw [h2]⟩
  exact ⟨by simp, by decide, hall,
    C3_csv_roundtrip _ ["name", "email"] (by simp) (by decide) hall⟩

/- ## Claim C4 -/

theorem parseRowsFrom_err (header : List String) :
    ∀ (rest : List (List String)) (i n : Nat) (hn : n < rest.length),
    (rest.get ⟨n, hn⟩).length ≠ header.length →
    (∀ m (hm : m < n), (rest.get ⟨m, Nat.lt_trans hm hn⟩).length = header.length) →
    Csv.parseRowsFrom header i rest = .error (.unequalLengths (i + n)) := by
  intro rest
  induction rest with
  | nil =>
    intro i n hn
    exact absurd hn (Nat.not_lt_zero n)
  | cons r rest' ih =>
    intro i n hn hmis hearly
    cases n with
    | zero =>
      have hmis' : r.length ≠ header.length := hmis
      unfold Csv.parseRowsFrom
      rw [if_pos hmis', Nat.add_zero]
    | succ n' =>
      have hr : r.length = header.length := hearly 0 (Nat.succ_pos n')
      have hmis' : (rest'.get ⟨n', Nat.lt_of_succ_lt_succ hn⟩).length ≠
        header.length := hmis
      unfold Csv.parseRowsFrom
      rw [if_neg (by rw [hr]; exact fun hh => hh rfl),
        if_neg (by rw [hr]; exact fun hh => hh rfl)]
      rw [show i + (n' + 1) = (i + 1) + n' by omega]
      rw [ih (i + 1) n' (Nat.lt_of_succ_lt_succ hn) hmis'
        (fun m hm => hearly (m + 1) (Nat.succ_lt_succ hm))]
      rfl

theorem parseRowsFrom_ok (header : List String) :
    ∀ (rest : List (List String)) (i : Nat) (vals : List JValue),
    Csv.parseRowsFrom header i rest = .ok vals →
    vals.length = rest.length ∧ ∀ r ∈ rest, r.length = header.length := by
  intro rest
  induction rest with
  | nil =>
    intro i vals h
    have hv : ([] : List JValue) = vals := Except.ok.inj h
    subst hv
    exact ⟨rfl, by intro r hr; exact absurd hr (List.not_mem_nil r)⟩
  | cons r rest' ih =>
    intro i vals h
    unfold Csv.parseRowsFrom at h
    by_cases hmis : r.length ≠ header.length
    · rw [if_pos hmis] at h
      exact Except.noConfusion h
    · rw [if_neg hmis, if_neg hmis] at h
      have hr : r.length = header.length := not_ne_iff.mp hmis
      cases hrec : Csv.parseRowsFrom header (i + 1) rest' with
      | error e =>
        rw [hrec] at h
        exact Except.noConfusion h
      | ok vals' =>
        rw [hrec] at h
        have hv : JValue.obj (buildRecord header r) :: vals' = vals :=
          Except.ok.inj h
        subst hv
        obtain ⟨hlen, hrows⟩ := ih (i + 1) vals' hrec
        refine ⟨by simp [hlen], ?_⟩
        intro r' hr'
        rcases List.mem_cons.mp hr' with hh | hh
        · rw [hh]; exact hr
        · exact hrows r' hh

/-- **C4**: if data row `n` (0-based) is the first row whose field count
differs from the header's, tabular decode fails with the strict
field-count error naming row `n`, which `run` classifies as a Data error
whose message carries `n`; and whenever decode succeeds it has produced
exactly one record per data row with every row matching the header — no
truncation, padding, or dropped rows. -/
theorem C4_row_mismatch_is_error (header : List String)
    (rest : List (List String)) :
    (∀ n (hn : n < rest.length),
      (rest.get ⟨n, hn⟩).length ≠ header.length →
      (∀ m (hm : m < n), (rest.get ⟨m, Nat.lt_trans hm hn⟩).length = header.length) →
      Csv.parseRows (header :: rest) = .error (.unequalLengths n) ∧
      parseErrToEach (.unequalLengths n) =
        .data ("failed to parse input: " ++ ("record " ++ toString n ++
          ": found record with a different number of fields than the header"))) ∧
    (∀ vals, Csv.parseRows (header :: rest) = .ok vals →
      vals.length = rest.length ∧ ∀ r ∈ rest, r.length = header.length) := by
  constructor
  · intro n hn hmis hearly
    constructor
    · show Csv.parseRowsFrom header 0 rest = _
      rw [parseRowsFrom_err header rest 0 n hn hmis hearly, Nat.zero_add]
    · rfl
  · intro vals h
    exact parseRowsFrom_ok header rest 0 vals h

/-- Witness for C4: header `a,b`, first data row matching, second data row
with a single field; decode fails naming data row 1. -/
theorem C4_witness :
    ((([["1", "2"], ["3"]] : List (List String)).get ⟨1, by decide⟩).length ≠
      (["a", "b"] : List String).length) ∧
    Csv.parseRows [["a", "b"], ["1", "2"], ["3"]] =
      .error (.unequalLengths 1) := by
  refine ⟨by decide, ?_⟩
  exact ((C4_row_mismatch_is_error ["a", "b"] [["1", "2"], ["3"]]).1 1 (by decide)
    (by decide)
    (by
      intro m hm
      have hm0 : m = 0 := by omega
      subst hm0
      rfl)).1

end Each
